import Mathlib



/-!
Shallow embedding of the block-ordering and sentence-materialization engine
of the skim backend (src/backend/app.py and src/backend/database.py),
restricted to a single document.  Tables become lists of records; each SQL
statement of the embedded functions is translated pointwise.  SQLite's
`ORDER BY` is modelled by an insertion sort on the (user_order, word_number)
key, which coincides with any SQL result order whenever the keys are
distinct (they are in every well-formed state).  The pages table only
contributes page numbers to joins, so the page number is folded into the
block record.
-/



/-- A row of the blocks table (joined with its page), single document. -/
structure Block where
  id : Nat
  page_id : Nat
  page_number : Nat
  block_number : Nat
  user_order : Option Nat
deriving DecidableEq, Repr

/-- A row of the words table, single document. -/
structure Word where
  id : Nat
  page_id : Nat
  block_id : Nat
  word_number : Nat
  text : String
  is_sentence_starter : Bool
  sentence_number : Option Nat
deriving DecidableEq, Repr

/-- A row of the sentences table (the columns sync_sentences writes). -/
structure Sentence where
  page_id : Nat
  block_id : Nat
  sentence_number : Nat
  text : String
deriving DecidableEq, Repr

/-- The persisted state of one document. -/
structure DocState where
  blocks : List Block
  words : List Word
  sentences : List Sentence
deriving DecidableEq, Repr

/-- A row of the joined query at the top of sync_sentences (database.py
lines 521-538): one active-block word together with its block data. -/
structure Row where
  block_id : Nat
  page_id : Nat
  user_order : Nat
  word_number : Nat
  text : String
  is_starter : Bool
  word_id : Nat
deriving DecidableEq, Repr

/-- Python's ' '.join. -/
def joinSpace : List String → String
  | [] => ""
  | [a] => a
  | a :: b :: rest => a ++ " " ++ joinSpace (b :: rest)

/-- The SQL ORDER BY b.user_order, w.word_number key order. -/
def rowLe (a b : Row) : Prop :=
  a.user_order < b.user_order ∨
    (a.user_order = b.user_order ∧ a.word_number ≤ b.word_number)

instance : DecidableRel rowLe := fun a b => by
  unfold rowLe; exact inferInstance

/-- Rows the first join produces for one word: every active block b with
b.id = w.block_id and b.page_id = w.page_id. -/
def wordRows1 (bs : List Block) (w : Word) : List Row :=
  bs.filterMap fun b =>
    match b.user_order with
    | some u =>
        if b.id = w.block_id ∧ b.page_id = w.page_id then
          some ⟨b.id, b.page_id, u, w.word_number, w.text, w.is_sentence_starter, w.id⟩
        else none
    | none => none

/-- The join of database.py lines 521-538: blocks JOIN pages JOIN words ON
w.block_id = b.id AND w.page_id = b.page_id, WHERE b.user_order IS NOT NULL.
Row order before sorting is irrelevant (the query ends in ORDER BY). -/
def joinRows1 (s : DocState) : List Row :=
  s.words.flatMap (wordRows1 s.blocks)

/-- The word stream of sync_sentences: the join, in ORDER BY
(user_order, word_number) order. -/
def activeJoinRows (s : DocState) : List Row :=
  List.insertionSort rowLe (joinRows1 s)

/-- Rows the second join produces for one word: every active block b with
b.id = w.block_id (this join does not constrain the page). -/
def wordRows2 (bs : List Block) (w : Word) : List Row :=
  bs.filterMap fun b =>
    match b.user_order with
    | some u =>
        if b.id = w.block_id then
          some ⟨b.id, w.page_id, u, w.word_number, w.text, w.is_sentence_starter, w.id⟩
        else none
    | none => none

/-- The join of database.py lines 620-626 (and of the starter renumbering
queries in app.py): words JOIN blocks ON w.block_id = b.id WHERE
b.user_order IS NOT NULL, ORDER BY b.user_order, w.word_number. -/
def joinRows2 (s : DocState) : List Row :=
  s.words.flatMap (wordRows2 s.blocks)

/-- Sorted version of the second join. -/
def activeJoinRows2 (s : DocState) : List Row :=
  List.insertionSort rowLe (joinRows2 s)

/-- The sentence-building loop of sync_sentences (database.py lines 551-609).
State mirrors the source: the accumulated word texts of the sentence being
built, the next sentence number, and the block/page ids of the previously
processed word (None before the first word; the source would insert NULL in
that case, which is unreachable because the accumulator is empty then). -/
def syncLoop : List Row → List String → Nat → Option (Nat × Nat) → List Sentence
  | [], acc, n, prev =>
      if acc.isEmpty then []
      else
        [{ page_id := (prev.getD (0, 0)).1, block_id := (prev.getD (0, 0)).2,
           sentence_number := n, text := joinSpace acc }]
  | r :: rest, acc, n, prev =>
      if r.is_starter && !acc.isEmpty then
        { page_id := (prev.getD (0, 0)).1, block_id := (prev.getD (0, 0)).2,
          sentence_number := n, text := joinSpace acc }
          :: syncLoop rest [r.text] (n + 1) (some (r.page_id, r.block_id))
      else
        syncLoop rest (acc ++ [r.text]) n (some (r.page_id, r.block_id))

/-- Entry point of the sentence-building pass. -/
def buildSentences (rows : List Row) : List Sentence :=
  syncLoop rows [] 1 none

/-- The renumbering loop of sync_sentences (database.py lines 628-640): walk
the active-word stream with a counter starting at 1; each starter word id is
assigned the counter value, which then increments. -/
def assignNumbersLoop : List Row → Nat → List (Nat × Nat)
  | [], _ => []
  | r :: rest, n =>
      if r.is_starter then (r.word_id, n) :: assignNumbersLoop rest (n + 1)
      else assignNumbersLoop rest n

/-- Combined effect on one word of sync_sentences' UPDATEs at lines 612-640:
every word's sentence_number is first set to NULL, then each assigned word id
receives its number. -/
def setNumber (assign : List (Nat × Nat)) (w : Word) : Word :=
  match assign.lookup w.id with
  | some k => { w with sentence_number := some k }
  | none => { w with sentence_number := none }

/-- sync_sentences (database.py lines 512-670).  Returns the new state and
the boolean result: False both when no active-block word exists (line 543)
and on error, True on success.  The whole body is one transaction. -/
def syncSentences (s : DocState) : DocState × Bool :=
  let rows := activeJoinRows s
  if rows.isEmpty then (s, false)
  else
    let sents := buildSentences rows
    let assign := assignNumbersLoop (activeJoinRows2 s) 1
    ({ s with sentences := sents, words := s.words.map (setNumber assign) }, true)

/-- SELECT MAX(user_order) ... WHERE user_order IS NOT NULL, with the
`or 0` applied by app.py line 832. -/
def maxUserOrder (bs : List Block) : Nat :=
  (bs.filterMap Block.user_order).foldl max 0

/-- The UPDATE of app.py lines 835-841: set user_order = next on every block
matching the page/block number. -/
def setOrderAll (pn bn next : Nat) (bs : List Block) : List Block :=
  bs.map fun b =>
    if b.page_number = pn ∧ b.block_number = bn then
      { b with user_order := some next }
    else b

/-- The activation branch of app.py's activate_block (lines 824-841):
assign max+1 to every block matching the page/block number (no check that
the block was inactive). -/
def activateBlocks (bs : List Block) (pn bn : Nat) : List Block :=
  setOrderAll pn bn (maxUserOrder bs + 1) bs

/-- The UPDATE of app.py lines 856-862: NULL the user_order of every block
matching the page/block number. -/
def clearOrderAll (pn bn : Nat) (bs : List Block) : List Block :=
  bs.map fun b =>
    if b.page_number = pn ∧ b.block_number = bn then
      { b with user_order := none }
    else b

/-- The UPDATE of app.py lines 865-869: decrement every user_order strictly
greater than d. -/
def shiftDown (d : Nat) (bs : List Block) : List Block :=
  bs.map fun b =>
    match b.user_order with
    | some o => if d < o then { b with user_order := some (o - 1) } else b
    | none => b

/-- The deactivation branch of app.py's activate_block (lines 842-869):
fetch the first matching block; if its user_order is truthy (non-NULL and
non-zero, mirroring Python truthiness), NULL it out on every matching block
and decrement every strictly larger order. -/
def deactivateBlocks (bs : List Block) (pn bn : Nat) : List Block :=
  match bs.find? (fun b => b.page_number == pn && b.block_number == bn) with
  | none => bs
  | some b =>
      match b.user_order with
      | none => bs
      | some d =>
          if d = 0 then bs
          else shiftDown d (clearOrderAll pn bn bs)

/-- The activate_block endpoint (app.py lines 812-879).  It mutates only
block activation orders; it never calls sync_sentences. -/
def activateBlock (s : DocState) (pn bn : Nat) (is_activating : Bool) : DocState :=
  if is_activating then { s with blocks := activateBlocks s.blocks pn bn }
  else { s with blocks := deactivateBlocks s.blocks pn bn }

/-- A ledger request against the activate_block endpoint. -/
inductive LedgerOp where
  | activate (pn bn : Nat)
  | deactivate (pn bn : Nat)
deriving DecidableEq, Repr

/-- Dispatch one ledger request. -/
def applyOp (s : DocState) : LedgerOp → DocState
  | .activate pn bn => activateBlock s pn bn true
  | .deactivate pn bn => activateBlock s pn bn false

/-- Run a sequence of ledger requests. -/
def applyOps (s : DocState) (ops : List LedgerOp) : DocState :=
  ops.foldl applyOp s

/-- Dense-permutation property: the non-null activation orders are exactly
1..K, K the number of active blocks. -/
def denseOrders (bs : List Block) : Prop :=
  (bs.filterMap Block.user_order).Perm
    (List.range' 1 (bs.filterMap Block.user_order).length)

/-- First transaction of the toggle-sentence-starter endpoint (app.py lines
899-974): locate the word, flip its flag (the CASE expression reads the old
flag: a word becoming a starter loses its number, a word becoming a
non-starter keeps it), then renumber all active-block starters 1..N in
(user_order, word_number) order, setting every other starter's number to
NULL; non-starters keep their numbers.  None models the 404 path. -/
def togglePhase1 (s : DocState) (page_id block_id word_number : Nat) : Option DocState :=
  match s.words.find? (fun w =>
      w.page_id == page_id && w.block_id == block_id && w.word_number == word_number) with
  | none => none
  | some w0 =>
      let words1 := s.words.map fun v =>
        if v.id = w0.id then
          { v with
            is_sentence_starter := !v.is_sentence_starter,
            sentence_number :=
              if v.is_sentence_starter = false then none else v.sentence_number }
        else v
      let s1 : DocState := { s with words := words1 }
      let assign := assignNumbersLoop (activeJoinRows2 s1) 1
      some { s with
        words := words1.map fun v =>
          match assign.lookup v.id with
          | some k => { v with sentence_number := some k }
          | none =>
              if v.is_sentence_starter then { v with sentence_number := none } else v }

/-- The toggle-sentence-starter endpoint: the first transaction commits
(app.py line 974), then sync_sentences runs as a second, separate
transaction (line 977) whose boolean result the endpoint ignores. -/
def toggleStarter (s : DocState) (page_id block_id word_number : Nat) :
    Option (DocState × Bool) :=
  (togglePhase1 s page_id block_id word_number).map syncSentences

/-- The word-text segments of the stream: a new segment begins at every
starter that does not sit at the very front of the stream. -/
def segsAux : List Row → List Row → List (List Row)
  | [], acc => if acc.isEmpty then [] else [acc]
  | r :: rest, acc =>
      if r.is_starter && !acc.isEmpty then acc :: segsAux rest [r]
      else segsAux rest (acc ++ [r])

/-- Segmentation of a word stream into the per-sentence word lists. -/
def segs (rows : List Row) : List (List Row) :=
  segsAux rows []

/-- The sentence emitted for one segment: numbered n, attributed to the
block/page of the segment's last word, text the space-join of its words. -/
def segSentence (n : Nat) (seg : List Row) : Sentence :=
  { page_id := ((seg.getLast?).map Row.page_id).getD 0
    block_id := ((seg.getLast?).map Row.block_id).getD 0
    sentence_number := n
    text := joinSpace (seg.map Row.text) }

/-- Sentences for a list of segments, numbering from n. -/
def segSentences (n : Nat) : List (List Row) → List Sentence
  | [] => []
  | seg :: rest => segSentence n seg :: segSentences (n + 1) rest

/-- The fixed exception set of the upload classifier (app.py lines 134-138). -/
def common_caps : List String :=
  ["I", "Mr", "Mrs", "Ms", "Dr", "Prof", "St", "Ave", "Blvd", "Rd", "Ln",
   "Jan", "Feb", "Mar", "Apr", "May", "Jun", "Jul", "Aug", "Sep", "Oct", "Nov", "Dec",
   "Mon", "Tue", "Wed", "Thu", "Fri", "Sat", "Sun"]

/-- The starter test of app.py lines 152-161 for one word given the text of
the previously kept word (empty at block start).  Char.isUpper models
Python's str.isupper on the first character; both the embedding and the
claims use the same predicate, so its exact extension never matters. -/
def isStarterOf (word_text last_word_text : String) : Bool :=
  word_text != "" &&
  word_text.front.isUpper &&
  !(common_caps.contains word_text) &&
  (last_word_text == "" ||
    last_word_text.back == '.' || last_word_text.back == '!' || last_word_text.back == '?')

/-- The classifier loop over one block's kept words, threading
last_word_text exactly as app.py lines 140-177 do. -/
def classifyBlock : List String → String → List Bool
  | [], _ => []
  | w :: rest, last_word_text => isStarterOf w last_word_text :: classifyBlock rest w

/-- Classifier entry point: last_word_text starts empty. -/
def classifyWords (ws : List String) : List Bool :=
  classifyBlock ws ""

/-- Rules 1 and 2 of the spec's classifier contract: nonempty, first
character uppercase, not in the exception set. -/
def rule12 (w : String) : Prop :=
  w ≠ "" ∧ w.front.isUpper = true ∧ common_caps.contains w = false

/-- Sentence-ending punctuation. -/
def sentenceEndPunct (c : Char) : Prop :=
  c = '.' ∨ c = '!' ∨ c = '?'

/-- Rule 3 exactly as the claim words it: first word of the block, or the
previous word's last character is sentence-ending punctuation (an empty
previous word has no last character, hence fails this disjunct). -/
def claimRule3 (i : Nat) (prev : String) : Prop :=
  i = 0 ∨ (prev ≠ "" ∧ sentenceEndPunct prev.back)

/-- Rule 3 as the code implements it: the empty previous word also counts
as a boundary (Python tests `not last_word_text` first). -/
def codeRule3 (i : Nat) (prev : String) : Prop :=
  i = 0 ∨ prev = "" ∨ sentenceEndPunct prev.back

/-- The previous word of position i (empty for the first position). -/
def prevWord (ws : List String) (i : Nat) : String :=
  if i = 0 then "" else ws.getD (i - 1) ""

/-- Truth of the claim that a word belongs to a currently active block:
some block row carries its block id and a non-null user_order (the join
condition of the renumbering queries). -/
def wordActive (s : DocState) (w : Word) : Prop :=
  ∃ b ∈ s.blocks, b.id = w.block_id ∧ b.user_order.isSome

/-- The active-block starter rows in (user_order, word_number) order. -/
def starterRows (s : DocState) : List Row :=
  (activeJoinRows2 s).filter (·.is_starter)

/-- The sentence number currently stored for a word id. -/
def numberOfWordId (s : DocState) (id : Nat) : Option Nat :=
  (s.words.find? (fun w => w.id == id)).bind Word.sentence_number

/-- The word/sentence-number invariant of the spec: a word's number is
non-null iff it is a starter in an active block, and the numbers of the
active starters, read in (user_order, word_number) order, are 1..N. -/
def numberingInvariant (s : DocState) : Prop :=
  (∀ w ∈ s.words,
      w.sentence_number.isSome ↔ (w.is_sentence_starter = true ∧ wordActive s w)) ∧
  (starterRows s).map (fun r => numberOfWordId s r.word_id)
    = (List.range' 1 (starterRows s).length).map some

/-- Validity of one ledger request for the spec's precondition that
activation is only requested for inactive blocks (the endpoint itself never
checks this). -/
def opOK (s : DocState) : LedgerOp → Bool
  | .activate pn bn =>
      s.blocks.all fun b =>
        !(b.page_number == pn && b.block_number == bn) || b.user_order.isNone
  | .deactivate _ _ => true

/-- Validity of a request sequence: every activation targets a block that
is inactive at that point. -/
def opsOK (s : DocState) : List LedgerOp → Bool
  | [] => true
  | op :: ops => opOK s op && opsOK (applyOp s op) ops

/-- Page/block-number keys identify blocks uniquely (schema uniqueness). -/
def keysNodup (bs : List Block) : Prop :=
  (bs.map fun b => (b.page_number, b.block_number)).Nodup

/-- Shorthand for the non-null activation orders of a block list. -/
def ordersOf (bs : List Block) : List Nat :=
  bs.filterMap Block.user_order

/-- Value-level effect of the deactivation decrement. -/
def shiftVal (d o : Nat) : Nat :=
  if d < o then o - 1 else o

instance (bs : List Block) : Decidable (denseOrders bs) := by
  unfold denseOrders; exact inferInstance

instance (bs : List Block) : Decidable (keysNodup bs) := by
  unfold keysNodup; exact inferInstance

instance (s : DocState) (w : Word) : Decidable (wordActive s w) := by
  unfold wordActive; exact inferInstance

instance (s : DocState) : Decidable (numberingInvariant s) := by
  unfold numberingInvariant; exact inferInstance

instance (c : Char) : Decidable (sentenceEndPunct c) := by
  unfold sentenceEndPunct; exact inferInstance

instance (w : String) : Decidable (rule12 w) := by
  unfold rule12; exact inferInstance

instance (i : Nat) (p : String) : Decidable (claimRule3 i p) := by
  unfold claimRule3; exact inferInstance

instance (i : Nat) (p : String) : Decidable (codeRule3 i p) := by
  unfold codeRule3; exact inferInstance

/-! ### Auxiliary definitions and concrete example states used by the claims -/

/-- A word transformation that can change only the sentence_number field. -/
def preservesWordShape (f : Word → Word) : Prop :=
  ∀ w : Word, (f w).id = w.id ∧ (f w).page_id = w.page_id ∧ (f w).block_id = w.block_id ∧
    (f w).word_number = w.word_number ∧ (f w).text = w.text ∧
    (f w).is_sentence_starter = w.is_sentence_starter

/-- State with no active block, one stale stored sentence. -/
def exC1 : DocState :=
  ⟨[⟨1, 1, 1, 1, none⟩], [⟨1, 1, 1, 1, "Hello", true, none⟩],
   [⟨1, 1, 1, "stale"⟩]⟩

/-- State with one active block whose words contain no starter. -/
def exC1b : DocState :=
  ⟨[⟨1, 1, 1, 1, some 1⟩],
   [⟨1, 1, 1, 1, "hello", false, none⟩, ⟨2, 1, 1, 2, "there", false, none⟩],
   []⟩

/-- State with one inactive block containing one starter word and an empty
stored Sentence set. -/
def exC3 : DocState :=
  ⟨[⟨1, 1, 1, 1, none⟩], [⟨1, 1, 1, 1, "Hello", true, none⟩], []⟩

/-- Concrete stream for the C6 witness: a sentence starting in block 1 and
ending in block 2. -/
def exC6rows : List Row :=
  [⟨1, 1, 1, 1, "He", true, 1⟩, ⟨2, 1, 2, 1, "ran", false, 2⟩]

/-- Concrete state for the C10 witness: one active block with three words
and starters at words 1 and 3. -/
def exC10 : DocState :=
  ⟨[⟨1, 1, 1, 1, some 1⟩],
   [⟨1, 1, 1, 1, "One", true, none⟩, ⟨2, 1, 1, 2, "two", false, none⟩,
    ⟨3, 1, 1, 3, "Three", true, none⟩],
   []⟩

/-- State for C4: one inactive block, one non-starter word, one stale
stored sentence. -/
def exC4 : DocState :=
  ⟨[⟨1, 1, 1, 1, none⟩], [⟨1, 1, 1, 1, "Hi", false, none⟩], [⟨1, 1, 1, "stale"⟩]⟩

/-- The state actually persisted after toggling word 1 of exC4: the flag
flip is committed, the Sentence set is untouched. -/
def exC4after : DocState :=
  ⟨[⟨1, 1, 1, 1, none⟩], [⟨1, 1, 1, 1, "Hi", true, none⟩], [⟨1, 1, 1, "stale"⟩]⟩

/-- State for the C2 counterexample: a single block, never activated. -/
def exC2 : DocState :=
  ⟨[⟨1, 1, 1, 1, none⟩], [], []⟩

/-- State for the C2 witness: two inactive blocks. -/
def exC2w : DocState :=
  ⟨[⟨1, 1, 1, 1, none⟩, ⟨2, 1, 1, 2, none⟩], [], []⟩

def assignPairs : List Nat → Nat → List (Nat × Nat)
  | [], _ => []
  | a :: rest, n => (a, n) :: assignPairs rest (n + 1)

def starterIds (s : DocState) : List Nat :=
  (starterRows s).map (·.word_id)

/-- State used for the C5 counterexample: one inactive block with one
starter word; the activate operation is a completed Coordinator operation
after which the invariant must hold per the claim. -/
def exC5 : DocState :=
  ⟨[⟨1, 1, 1, 1, none⟩], [⟨1, 1, 1, 1, "Hi", true, none⟩], []⟩

/-- State for the C5 witness: one active block, a starter word and a
plain word. -/
def exC5w : DocState :=
  ⟨[⟨1, 1, 1, 1, some 1⟩],
   [⟨1, 1, 1, 1, "Hello", true, none⟩, ⟨2, 1, 1, 2, "there", false, some 9⟩],
   []⟩

/-! ### Basic facts about joinSpace and segmentation -/



theorem joinSpace_cons (a : String) (l : List String) (h : l ≠ []) :
    joinSpace (a :: l) = a ++ " " ++ joinSpace l := by
  cases l with
  | nil => exact absurd rfl h
  | cons b t => rfl

theorem joinSpace_append (xs ys : List String) (hx : xs ≠ []) (hy : ys ≠ []) :
    joinSpace (xs ++ ys) = joinSpace xs ++ " " ++ joinSpace ys := by
  induction xs with
  | nil => exact absurd rfl hx
  | cons a t ih =>
      cases t with
      | nil =>
          cases ys with
          | nil => exact absurd rfl hy
          | cons c u => rfl
      | cons b t2 =>
          rw [List.cons_append,
            joinSpace_cons a ((b :: t2) ++ ys) (by simp),
            joinSpace_cons a (b :: t2) (by simp),
            ih (by simp)]
          simp [String.append_assoc]

theorem flatten_ne_nil {L : List (List String)} (hne : L ≠ [])
    (hall : ∀ g ∈ L, g ≠ []) : L.flatten ≠ [] := by
  cases L with
  | nil => exact absurd rfl hne
  | cons g t =>
      have hg : g ≠ [] := hall g (by simp)
      cases g with
      | nil => exact absurd rfl hg
      | cons x u => simp

theorem getLast_of_ne_nil {α : Type} (l : List α) (h : l ≠ []) :
    ∃ last, l.getLast? = some last := by
  cases l with
  | nil => exact absurd rfl h
  | cons a t => exact ⟨(a :: t).getLast (by simp), List.getLast?_eq_getLast _ _⟩

theorem syncLoop_eq_segSentences (rows : List Row) : ∀ (accR : List Row) (n : Nat),
    syncLoop rows (accR.map Row.text) n
        ((accR.getLast?).map fun r => (r.page_id, r.block_id))
      = segSentences n (segsAux rows accR) := by
  induction rows with
  | nil =>
      intro accR n
      cases accR with
      | nil => rfl
      | cons a t =>
          obtain ⟨last, hlast⟩ := getLast_of_ne_nil (a :: t) (by simp)
          simp [syncLoop, segsAux, hlast, segSentences, segSentence]
  | cons r rest ih =>
      intro accR n
      by_cases hs : (r.is_starter && !accR.isEmpty) = true
      · have hne : accR ≠ [] := by
          rcases Bool.and_eq_true_iff.mp hs with ⟨h1, h2⟩
          simpa using h2
        obtain ⟨last, hlast⟩ := getLast_of_ne_nil accR hne
        have hmap : (accR.map Row.text).isEmpty = accR.isEmpty := by
          cases accR <;> simp
        have step2 : syncLoop rest [r.text] (n + 1) (some (r.page_id, r.block_id))
            = segSentences (n + 1) (segsAux rest [r]) := by
          simpa using ih [r] (n + 1)
        simp only [syncLoop, segsAux, hmap, hs, if_true, segSentences, step2,
          hlast, segSentence]
        simp
      · have hmap : (accR.map Row.text).isEmpty = accR.isEmpty := by
          cases accR <;> simp
        have step2 : syncLoop rest ((accR ++ [r]).map Row.text) n
            (((accR ++ [r]).getLast?).map fun x => (x.page_id, x.block_id))
            = segSentences n (segsAux rest (accR ++ [r])) := ih (accR ++ [r]) n
        rw [List.map_append] at step2
        rw [List.getLast?_concat] at step2
        simp only [syncLoop, segsAux, hmap, hs, if_false, Bool.false_eq_true]
        simpa using step2

theorem joinSpace_flatten (L : List (List String)) (hall : ∀ g ∈ L, g ≠ []) :
    joinSpace (L.map joinSpace) = joinSpace L.flatten := by
  induction L with
  | nil => rfl
  | cons g t ih =>
      have hg : g ≠ [] := hall g (by simp)
      cases t with
      | nil => simp [joinSpace]
      | cons g2 t2 =>
          have hall2 : ∀ x ∈ g2 :: t2, x ≠ [] := fun x hx => hall x (by simp [hx])
          have hmapne : (g2 :: t2).map joinSpace ≠ [] := by simp
          rw [List.map_cons, List.flatten_cons,
            joinSpace_cons (joinSpace g) ((g2 :: t2).map joinSpace) hmapne,
            ih hall2,
            joinSpace_append g (g2 :: t2).flatten hg
              (flatten_ne_nil (by simp) hall2)]

theorem buildSentences_eq_segSentences (rows : List Row) :
    buildSentences rows = segSentences 1 (segs rows) := by
  simpa using syncLoop_eq_segSentences rows [] 1

theorem segsAux_flatten (rows : List Row) : ∀ accR : List Row,
    (segsAux rows accR).flatten = accR ++ rows := by
  induction rows with
  | nil =>
      intro accR
      cases accR <;> simp [segsAux]
  | cons r rest ih =>
      intro accR
      by_cases hs : (r.is_starter && !accR.isEmpty) = true
      · simp only [segsAux, hs, if_true, List.flatten_cons, ih [r]]
        simp
      · simp only [segsAux, hs, if_false, Bool.false_eq_true, ih (accR ++ [r])]
        simp

theorem segsAux_ne_nil (rows : List Row) : ∀ accR : List Row,
    ∀ g ∈ segsAux rows accR, g ≠ [] := by
  induction rows with
  | nil =>
      intro accR g hg
      cases accR with
      | nil => simp [segsAux] at hg
      | cons a t =>
          simp [segsAux] at hg
          simp [hg]
  | cons r rest ih =>
      intro accR g hg
      by_cases hs : (r.is_starter && !accR.isEmpty) = true
      · simp only [segsAux, hs, if_true, List.mem_cons] at hg
        rcases hg with hg | hg
        · have : accR ≠ [] := by
            rcases Bool.and_eq_true_iff.mp hs with ⟨h1, h2⟩
            simpa using h2
          simpa [hg] using this
        · exact ih [r] g hg
      · simp only [segsAux, hs, if_false, Bool.false_eq_true] at hg
        exact ih (accR ++ [r]) g hg

theorem segSentences_map_text (L : List (List Row)) : ∀ n : Nat,
    (segSentences n L).map Sentence.text
      = L.map (fun seg => joinSpace (seg.map Row.text)) := by
  induction L with
  | nil => intro n; rfl
  | cons g t ih =>
      intro n
      simp only [segSentences, List.map_cons, ih (n + 1), segSentence]

theorem segSentences_map_number (L : List (List Row)) : ∀ n : Nat,
    (segSentences n L).map Sentence.sentence_number = List.range' n L.length := by
  induction L with
  | nil => intro n; rfl
  | cons g t ih =>
      intro n
      simp only [segSentences, List.map_cons, ih (n + 1), segSentence,
        List.length_cons, List.range'_succ]

theorem segSentences_length (L : List (List Row)) : ∀ n : Nat,
    (segSentences n L).length = L.length := by
  induction L with
  | nil => intro n; rfl
  | cons g t ih =>
      intro n
      simp only [segSentences, List.length_cons, ih (n + 1)]

theorem segsAux_no_starter (rows : List Row)
    (h : ∀ r ∈ rows, r.is_starter = false) : ∀ accR : List Row, accR ≠ [] →
    segsAux rows accR = [accR ++ rows] := by
  induction rows with
  | nil =>
      intro accR hne
      cases accR with
      | nil => exact absurd rfl hne
      | cons a t => simp [segsAux]
  | cons r rest ih =>
      intro accR hne
      have hr : r.is_starter = false := h r (by simp)
      have hrest : ∀ x ∈ rest, x.is_starter = false := fun x hx => h x (by simp [hx])
      simp only [segsAux, hr, Bool.false_and, Bool.false_eq_true, if_false,
        ih hrest (accR ++ [r]) (by simp)]
      simp

/-! ### Invariance of the joins under sentence-number updates -/



theorem wordRows1_shape (bs : List Block) (f : Word → Word)
    (hf : preservesWordShape f) (w : Word) : wordRows1 bs (f w) = wordRows1 bs w := by
  obtain ⟨h1, h2, h3, h4, h5, h6⟩ := hf w
  unfold wordRows1
  simp only [h1, h2, h3, h4, h5, h6]

theorem wordRows2_shape (bs : List Block) (f : Word → Word)
    (hf : preservesWordShape f) (w : Word) : wordRows2 bs (f w) = wordRows2 bs w := by
  obtain ⟨h1, h2, h3, h4, h5, h6⟩ := hf w
  unfold wordRows2
  simp only [h1, h2, h3, h4, h5, h6]

theorem flatMap_map_shape {β : Type} (ws : List Word) (f : Word → Word)
    (g : Word → List β) (hg : ∀ w, g (f w) = g w) :
    (ws.map f).flatMap g = ws.flatMap g := by
  induction ws with
  | nil => rfl
  | cons w t ih => simp only [List.map_cons, List.flatMap_cons, hg w, ih]

theorem setNumber_shape (assign : List (Nat × Nat)) :
    preservesWordShape (setNumber assign) := by
  intro w
  unfold setNumber
  cases assign.lookup w.id <;> simp

theorem activeJoinRows_setNumber (s : DocState) (assign : List (Nat × Nat))
    (t : List Sentence) :
    activeJoinRows ⟨s.blocks, s.words.map (setNumber assign), t⟩ = activeJoinRows s := by
  unfold activeJoinRows joinRows1
  simp only []
  rw [flatMap_map_shape s.words (setNumber assign) (wordRows1 s.blocks)
    (wordRows1_shape s.blocks (setNumber assign) (setNumber_shape assign))]

theorem activeJoinRows2_setNumber (s : DocState) (assign : List (Nat × Nat))
    (t : List Sentence) :
    activeJoinRows2 ⟨s.blocks, s.words.map (setNumber assign), t⟩ = activeJoinRows2 s := by
  unfold activeJoinRows2 joinRows2
  simp only []
  rw [flatMap_map_shape s.words (setNumber assign) (wordRows2 s.blocks)
    (wordRows2_shape s.blocks (setNumber assign) (setNumber_shape assign))]

theorem setNumber_setNumber (assign : List (Nat × Nat)) (w : Word) :
    setNumber assign (setNumber assign w) = setNumber assign w := by
  have hid : (setNumber assign w).id = w.id := (setNumber_shape assign w).1
  cases h : assign.lookup w.id <;>
    simp [setNumber, hid, h]

theorem syncSentences_of_empty (s : DocState) (h : activeJoinRows s = []) :
    syncSentences s = (s, false) := by
  simp [syncSentences, h]

theorem syncSentences_of_ne (s : DocState) (h : ¬ activeJoinRows s = []) :
    syncSentences s
      = ({ s with
            sentences := buildSentences (activeJoinRows s),
            words := s.words.map (setNumber (assignNumbersLoop (activeJoinRows2 s) 1)) },
         true) := by
  rw [syncSentences]
  simp only [List.isEmpty_iff, h, if_false]

/-- C9: calling sync_sentences twice in a row with no intervening mutation
of words or blocks yields identical results both times; in particular the
second call returns exactly the Sentence set of the first (same numbers,
texts and page/block attributions). -/
theorem claim_C9_sync_idempotent (s : DocState) :
    syncSentences ((syncSentences s).1) = syncSentences s := by
  by_cases h : activeJoinRows s = []
  · rw [syncSentences_of_empty s h]
    exact syncSentences_of_empty s h
  · rw [syncSentences_of_ne s h]
    have hr1 := activeJoinRows_setNumber s (assignNumbersLoop (activeJoinRows2 s) 1)
      (buildSentences (activeJoinRows s))
    have hr2 := activeJoinRows2_setNumber s (assignNumbersLoop (activeJoinRows2 s) 1)
      (buildSentences (activeJoinRows s))
    show syncSentences
        ⟨s.blocks, s.words.map (setNumber (assignNumbersLoop (activeJoinRows2 s) 1)),
          buildSentences (activeJoinRows s)⟩ = _
    rw [syncSentences_of_ne _ (by rw [hr1]; exact h)]
    rw [hr1, hr2]
    have hw : (s.words.map (setNumber (assignNumbersLoop (activeJoinRows2 s) 1))).map
          (setNumber (assignNumbersLoop (activeJoinRows2 s) 1))
        = s.words.map (setNumber (assignNumbersLoop (activeJoinRows2 s) 1)) := by
      rw [List.map_map]
      exact List.map_congr_left fun w _ =>
        setNumber_setNumber (assignNumbersLoop (activeJoinRows2 s) 1) w
    simp only [hw]

/-! ### Claim C1 -/



/-- C1 counterexample: on a document with zero active blocks sync_sentences
returns False, exactly the signal its error path returns (database.py line
668), and the stored Sentence set remains the stale one-element set instead
of becoming zero Sentences. -/
theorem claim_C1_counterexample :
    (syncSentences exC1).2 = false ∧ ((syncSentences exC1).1).sentences ≠ [] := by
  decide

/-- C1 amended: when no active block contains a word, sync_sentences
returns False, indistinguishable from its failure signal, and leaves the
document state, in particular the stored Sentence set, unchanged; when
active words exist but none is a starter, it succeeds (True) and
materializes exactly one Sentence holding every active word, not zero. -/
theorem claim_C1_amended (s : DocState) :
    (activeJoinRows s = [] → syncSentences s = (s, false)) ∧
    (activeJoinRows s ≠ [] → (∀ r ∈ activeJoinRows s, r.is_starter = false) →
      (syncSentences s).2 = true ∧ ((syncSentences s).1).sentences.length = 1) := by
  constructor
  · exact syncSentences_of_empty s
  · intro h hns
    rw [syncSentences_of_ne s h]
    refine ⟨rfl, ?_⟩
    show (buildSentences (activeJoinRows s)).length = 1
    rw [buildSentences_eq_segSentences, segSentences_length]
    cases hrows : activeJoinRows s with
    | nil => exact absurd hrows h
    | cons r rest =>
        have h1 : ∀ x ∈ rest, x.is_starter = false := fun x hx =>
          hns x (by rw [hrows]; simp [hx])
        unfold segs
        simp only [segsAux, List.isEmpty_nil, Bool.not_true, Bool.and_false,
          Bool.false_eq_true, if_false, List.nil_append]
        rw [segsAux_no_starter rest h1 [r] (by simp)]
        rfl

/-- Witness for C1: both branches of the amended statement hold at concrete
states (exC1 has no active block; exC1b has active words, no starter). -/
theorem claim_C1_witness :
    (syncSentences exC1 = (exC1, false)) ∧
    ((syncSentences exC1b).2 = true ∧ ((syncSentences exC1b).1).sentences.length = 1) :=
  ⟨(claim_C1_amended exC1).1 (by decide),
   (claim_C1_amended exC1b).2 (by decide) (by decide)⟩

/-! ### Claim C3 -/



/-- C3 counterexample: after activating the block the operation has
completed, yet the stored Sentence set (still empty) differs from the
result of materializing over the new active set (one sentence): the
endpoint never invoked the rebuild. -/
theorem claim_C3_counterexample :
    (activateBlock exC3 1 1 true).sentences
      ≠ buildSentences (activeJoinRows (activateBlock exC3 1 1 true)) := by
  decide

/-- C3 amended: activate_block, in both its activating and deactivating
directions, mutates only block activation orders; it never invokes the
Materializer, so the stored Sentence set and every word row are unchanged
(stale until some later operation happens to run sync_sentences). -/
theorem claim_C3_amended (s : DocState) (pn bn : Nat) (flag : Bool) :
    (activateBlock s pn bn flag).sentences = s.sentences ∧
    (activateBlock s pn bn flag).words = s.words := by
  cases flag <;> simp [activateBlock]

theorem segSentences_get (L : List (List Row)) : ∀ n i : Nat, i < L.length →
    (segSentences n L).get? i = some (segSentence (n + i) (L.getD i [])) := by
  induction L with
  | nil => intro n i h; simp at h
  | cons g t ih =>
      intro n i h
      cases i with
      | zero => simp [segSentences]
      | succ j =>
          have hj : j < t.length := by simpa using h
          simp only [segSentences, List.get?_cons_succ, ih (n + 1) j hj,
            List.getD_cons_succ]
          have : n + 1 + j = n + (j + 1) := by omega
          rw [this]

/-- C6: a materialized sentence that spans two active blocks in stream
order is recorded under the page/block identifiers of the block containing
its final word (the later-order block), not the block containing its first
word.  Segment i of the active word stream materializes as sentence i+1,
attributed to the block and page of the segment's last word. -/
theorem claim_C6_boundary_attribution (rows : List Row) (i : Nat)
    (h : i < (segs rows).length) (rfirst rlast : Row)
    (hfirst : ((segs rows).getD i []).head? = some rfirst)
    (hlast : ((segs rows).getD i []).getLast? = some rlast)
    (hspan : rfirst.block_id ≠ rlast.block_id) :
    ∃ sent : Sentence, (buildSentences rows).get? i = some sent ∧
      sent.block_id = rlast.block_id ∧ sent.page_id = rlast.page_id ∧
      sent.block_id ≠ rfirst.block_id ∧ sent.sentence_number = 1 + i := by
  refine ⟨segSentence (1 + i) ((segs rows).getD i []), ?_, ?_, ?_, ?_, rfl⟩
  · rw [buildSentences_eq_segSentences]
    exact segSentences_get (segs rows) 1 i h
  · simp only [segSentence]
    rw [hlast]
    rfl
  · simp only [segSentence]
    rw [hlast]
    rfl
  · simp only [segSentence]
    rw [hlast]
    exact fun hc => hspan hc.symm

/-- Witness for C6: on the concrete two-block stream the single sentence is
attributed to block 2, the block of its final word. -/
theorem claim_C6_witness :
    ∃ sent : Sentence, (buildSentences exC6rows).get? 0 = some sent ∧
      sent.block_id = 2 ∧ sent.page_id = 1 ∧ sent.block_id ≠ 1 ∧
      sent.sentence_number = 1 + 0 :=
  claim_C6_boundary_attribution exC6rows 0 (by decide)
    ⟨1, 1, 1, 1, "He", true, 1⟩ ⟨2, 1, 2, 1, "ran", false, 2⟩
    (by decide) (by decide) (by decide)

/-- C10: on every document where sync_sentences succeeds (some active block
contains words), the produced Sentences partition the active word stream:
the space-join of the sentence texts (the stored list is in ascending
sentence-number order, conjunct four) equals the space-join of all active
words in (user_order, word_number) order, and the segments the sentences
come from flatten back to exactly the stream, so every active word lands in
exactly one sentence, none dropped or duplicated. -/
theorem claim_C10_partition (s : DocState) (h : activeJoinRows s ≠ []) :
    (syncSentences s).2 = true ∧
    joinSpace ((((syncSentences s).1).sentences).map Sentence.text)
      = joinSpace ((activeJoinRows s).map Row.text) ∧
    (segs (activeJoinRows s)).flatten = activeJoinRows s ∧
    (((syncSentences s).1).sentences).map Sentence.sentence_number
      = List.range' 1 (segs (activeJoinRows s)).length := by
  rw [syncSentences_of_ne s h]
  have hflat : (segs (activeJoinRows s)).flatten = activeJoinRows s := by
    simpa using segsAux_flatten (activeJoinRows s) []
  refine ⟨rfl, ?_, hflat, ?_⟩
  · show joinSpace ((buildSentences (activeJoinRows s)).map Sentence.text) = _
    rw [buildSentences_eq_segSentences, segSentences_map_text]
    have hgroups : ∀ g ∈ segs (activeJoinRows s), g ≠ [] := segsAux_ne_nil _ []
    have hrw : (segs (activeJoinRows s)).map (fun seg => joinSpace (seg.map Row.text))
        = ((segs (activeJoinRows s)).map (fun seg => seg.map Row.text)).map joinSpace := by
      rw [List.map_map]
      rfl
    rw [hrw, joinSpace_flatten _ ?_, ← List.map_flatten, hflat]
    intro g' hg'
    rcases List.mem_map.mp hg' with ⟨g, hg, rfl⟩
    simpa using hgroups g hg
  · show (buildSentences (activeJoinRows s)).map Sentence.sentence_number = _
    rw [buildSentences_eq_segSentences, segSentences_map_number]

/-- Witness for C10 at the concrete state exC10. -/
theorem claim_C10_witness :
    (syncSentences exC10).2 = true ∧
    joinSpace ((((syncSentences exC10).1).sentences).map Sentence.text)
      = joinSpace ((activeJoinRows exC10).map Row.text) ∧
    (segs (activeJoinRows exC10)).flatten = activeJoinRows exC10 ∧
    (((syncSentences exC10).1).sentences).map Sentence.sentence_number
      = List.range' 1 (segs (activeJoinRows exC10)).length :=
  claim_C10_partition exC10 (by decide)

/-! ### Claims C7 and C8: the upload classifier -/



theorem classifyBlock_get (ws : List String) : ∀ (last : String) (i : Nat),
    i < ws.length →
    (classifyBlock ws last).get? i
      = some (isStarterOf (ws.getD i "") (if i = 0 then last else ws.getD (i - 1) "")) := by
  induction ws with
  | nil => intro last i h; simp at h
  | cons w t ih =>
      intro last i h
      cases i with
      | zero => simp [classifyBlock]
      | succ j =>
          have hj : j < t.length := by simpa using h
          simp only [classifyBlock, List.get?_cons_succ, ih w j hj, List.getD_cons_succ]
          cases j with
          | zero => simp
          | succ k => simp

theorem isStarterOf_iff (w prev : String) :
    isStarterOf w prev = true ↔
      (rule12 w ∧ (prev = "" ∨ sentenceEndPunct prev.back)) := by
  unfold isStarterOf rule12 sentenceEndPunct
  simp only [Bool.and_eq_true, Bool.or_eq_true, bne_iff_ne, beq_iff_eq,
    Bool.not_eq_eq_eq_not, Bool.not_true, and_assoc, or_assoc]

/-- C7 counterexample: in the block with word sequence two words, an
empty-text word followed by a word A, the code classifies A (position 1) as
a starter because Python treats the empty previous text like a block start,
while the claim's rule 3 requires the previous word's last character to be
sentence-ending punctuation, which an empty previous word cannot satisfy. -/
theorem claim_C7_counterexample :
    ¬ (((classifyWords ["", "A"]).get? 1 = some true) ↔
        (rule12 "A" ∧ claimRule3 1 (prevWord ["", "A"] 1))) := by
  decide

/-- C7 amended: a word is classified a starter iff it is nonempty with an
uppercase first character, its text is not in the exception set, and either
it is the block's first word, or the previous word's text is empty, or the
previous word's last character is one of period, exclamation or question
mark.  Only the empty-previous-word disjunct is added to the claim. -/
theorem claim_C7_amended (ws : List String) (i : Nat) (h : i < ws.length) :
    (classifyWords ws).get? i = some true ↔
      (rule12 (ws.getD i "") ∧ codeRule3 i (prevWord ws i)) := by
  unfold classifyWords prevWord codeRule3
  rw [classifyBlock_get ws "" i h, Option.some_inj, isStarterOf_iff]
  cases i with
  | zero => simp
  | succ j => simp

/-- Witness for C7 at a concrete block: Now after a period-final word. -/
theorem claim_C7_witness :
    (classifyWords ["Go.", "Now"]).get? 1 = some true ↔
      (rule12 (["Go.", "Now"].getD 1 "") ∧ codeRule3 1 (prevWord ["Go.", "Now"] 1)) :=
  claim_C7_amended ["Go.", "Now"] 1 (by decide)

/-- C8 counterexample: the word hello is not in the exception set, yet as
first word of its block it is not classified a starter, because the claim
omits the uppercase-initial requirement. -/
theorem claim_C8_counterexample :
    (classifyWords ["hello"]).get? 0 = some false ∧
      common_caps.contains "hello" = false := by
  decide

/-- C8 amended: the first word of every block is classified a starter iff
its text is nonempty, begins with an uppercase character and is not in the
exception set; the look-back rule never excludes a block's first word. -/
theorem claim_C8_amended (w : String) (ws : List String) :
    (classifyWords (w :: ws)).head? =
      some (w != "" && w.front.isUpper && !(common_caps.contains w)) := by
  simp [classifyWords, classifyBlock, isStarterOf]

/-! ### Claim C4: atomicity of the Coordinator operations -/



/-- C4 counterexample: toggling a word of exC4 completes and persists a
state in which the flag mutation took effect (words changed) while the
Sentence rebuild did not (sentences unchanged and different from the
materialization over the active set): neither all of the operation nor none
of it was persisted.  The flag flip was committed by the first transaction
(app.py line 974) and the separate sync_sentences transaction then returned
False without touching the Sentence set. -/
theorem claim_C4_counterexample :
    toggleStarter exC4 1 1 1 = some (exC4after, false) ∧
    exC4after.words ≠ exC4.words ∧
    exC4after.sentences = exC4.sentences ∧
    exC4after.sentences ≠ buildSentences (activeJoinRows exC4after) := by
  decide

/-- C4 amended: toggle_sentence_starter runs as two transactions, not one
atomic unit: the first commits the flag flip and starter renumbering, the
second runs sync_sentences separately.  Whenever the second finds no
active-block word (the condition under which it reports failure), the first
transaction's effects remain durably committed while the stored Sentence
set stays exactly what it was before the operation. -/
theorem claim_C4_amended (s : DocState) (pid bid wn : Nat) (s1 : DocState)
    (hp : togglePhase1 s pid bid wn = some s1)
    (hempty : activeJoinRows s1 = []) :
    toggleStarter s pid bid wn = some (s1, false) ∧ s1.sentences = s.sentences := by
  constructor
  · unfold toggleStarter
    rw [hp]
    simp [syncSentences_of_empty s1 hempty]
  · unfold togglePhase1 at hp
    cases hfind : s.words.find? (fun w =>
        w.page_id == pid && w.block_id == bid && w.word_number == wn) with
    | none =>
        rw [hfind] at hp
        exact absurd hp (by simp)
    | some w0 =>
        rw [hfind] at hp
        simp only [Option.some_inj] at hp
        rw [← hp]

/-- Witness for C4 at the concrete state exC4. -/
theorem claim_C4_witness :
    toggleStarter exC4 1 1 1 = some (exC4after, false) ∧
      exC4after.sentences = exC4.sentences :=
  claim_C4_amended exC4 1 1 1 exC4after (by decide) (by decide)

/-! ### Claim C2: the dense-order invariant -/



theorem foldl_max_perm {l1 l2 : List Nat} (h : l1.Perm l2) : ∀ a : Nat,
    l1.foldl max a = l2.foldl max a := by
  induction h with
  | nil => intro a; rfl
  | cons x _ ih => intro a; simp only [List.foldl_cons, ih]
  | swap x y l =>
      intro a
      simp only [List.foldl_cons]
      rw [show a ⊔ y ⊔ x = a ⊔ x ⊔ y by
        rw [max_assoc, max_assoc, max_comm y x]]
  | trans _ _ ih1 ih2 => intro a; rw [ih1, ih2]

theorem foldl_max_range' : ∀ K : Nat, (List.range' 1 K).foldl max 0 = K := by
  intro K
  induction K with
  | zero => rfl
  | succ n ih =>
      rw [List.range'_concat, List.foldl_append]
      simp only [List.foldl_cons, List.foldl_nil, ih]
      omega

theorem maxUserOrder_of_dense (bs : List Block) (hd : denseOrders bs) :
    maxUserOrder bs = (bs.filterMap Block.user_order).length := by
  unfold maxUserOrder
  unfold denseOrders at hd
  rw [foldl_max_perm hd 0]
  exact foldl_max_range' _

theorem setOrderAll_no_match (pn bn next : Nat) (bs : List Block)
    (h : ∀ b ∈ bs, ¬(b.page_number = pn ∧ b.block_number = bn)) :
    setOrderAll pn bn next bs = bs := by
  unfold setOrderAll
  conv_rhs => rw [← List.map_id bs]
  exact List.map_congr_left fun b hb => by simp [h b hb]

theorem clearOrderAll_no_match (pn bn : Nat) (bs : List Block)
    (h : ∀ b ∈ bs, ¬(b.page_number = pn ∧ b.block_number = bn)) :
    clearOrderAll pn bn bs = bs := by
  unfold clearOrderAll
  conv_rhs => rw [← List.map_id bs]
  exact List.map_congr_left fun b hb => by simp [h b hb]

theorem no_match_in_tail (pn bn : Nat) (b : Block) (t : List Block)
    (hk : keysNodup (b :: t)) (hb : b.page_number = pn ∧ b.block_number = bn) :
    ∀ x ∈ t, ¬(x.page_number = pn ∧ x.block_number = bn) := by
  intro x hx hxm
  unfold keysNodup at hk
  rw [List.map_cons, List.nodup_cons] at hk
  apply hk.1
  have hkey : (x.page_number, x.block_number) = (b.page_number, b.block_number) := by
    rw [hxm.1, hxm.2, hb.1, hb.2]
  rw [← hkey]
  exact List.mem_map.mpr ⟨x, hx, rfl⟩

theorem keysNodup_tail (b : Block) (t : List Block) (hk : keysNodup (b :: t)) :
    keysNodup t := by
  unfold keysNodup at *
  rw [List.map_cons, List.nodup_cons] at hk
  exact hk.2

theorem ordersOf_setOrderAll (pn bn next : Nat) : ∀ bs : List Block,
    keysNodup bs →
    (∀ b ∈ bs, b.page_number = pn → b.block_number = bn → b.user_order = none) →
    (∃ b ∈ bs, b.page_number = pn ∧ b.block_number = bn) →
    (ordersOf (setOrderAll pn bn next bs)).Perm (next :: ordersOf bs) := by
  intro bs
  induction bs with
  | nil => intro _ _ hex; simp at hex
  | cons b t ih =>
      intro hk hin hex
      by_cases hb : b.page_number = pn ∧ b.block_number = bn
      · have hbo : b.user_order = none := hin b (by simp) hb.1 hb.2
        have ht : setOrderAll pn bn next t = t :=
          setOrderAll_no_match pn bn next t (no_match_in_tail pn bn b t hk hb)
        unfold setOrderAll ordersOf
        rw [List.map_cons]
        have hmapt : (t.map fun x =>
            if x.page_number = pn ∧ x.block_number = bn then
              { x with user_order := some next } else x) = t := ht
        rw [hmapt]
        simp [hb, hbo, List.filterMap_cons]
      · have hex2 : ∃ x ∈ t, x.page_number = pn ∧ x.block_number = bn := by
          rcases hex with ⟨x, hx, hxm⟩
          rcases List.mem_cons.mp hx with rfl | hx2
          · exact absurd hxm hb
          · exact ⟨x, hx2, hxm⟩
        have hin2 : ∀ x ∈ t, x.page_number = pn → x.block_number = bn →
            x.user_order = none := fun x hx => hin x (by simp [hx])
        have ihp := ih (keysNodup_tail b t hk) hin2 hex2
        unfold setOrderAll ordersOf at ihp ⊢
        rw [List.map_cons]
        cases hbo : b.user_order with
        | none => simpa [hb, hbo, List.filterMap_cons] using ihp
        | some o =>
            simp only [hb, if_false, List.filterMap_cons, hbo]
            exact ((ihp.cons o).trans (List.Perm.swap next o _))

theorem ordersOf_shiftDown (d : Nat) : ∀ bs : List Block,
    ordersOf (shiftDown d bs) = (ordersOf bs).map (shiftVal d) := by
  intro bs
  induction bs with
  | nil => rfl
  | cons b t ih =>
      unfold ordersOf shiftDown at ih ⊢
      rw [List.map_cons]
      cases hb : b.user_order with
      | none => simpa [List.filterMap_cons, hb] using ih
      | some o =>
          by_cases hdo : d < o
          · simpa [List.filterMap_cons, hb, hdo, shiftVal] using ih
          · simpa [List.filterMap_cons, hb, hdo, shiftVal] using ih

theorem ordersOf_deactivate_body (pn bn d : Nat) : ∀ (bs : List Block) (b0 : Block),
    keysNodup bs →
    (ordersOf bs).Nodup →
    bs.find? (fun b => b.page_number == pn && b.block_number == bn) = some b0 →
    b0.user_order = some d →
    ordersOf (shiftDown d (clearOrderAll pn bn bs))
      = ((ordersOf bs).erase d).map (shiftVal d) := by
  intro bs
  induction bs with
  | nil => intro b0 _ _ hfind _; simp at hfind
  | cons b t ih =>
      intro b0 hk hnd hfind hb0
      by_cases hb : b.page_number = pn ∧ b.block_number = bn
      · have hfb : b = b0 := by
          have hpos : List.find? (fun x : Block => x.page_number == pn && x.block_number == bn)
              (b :: t) = some b := List.find?_cons_of_pos t (by simp [hb.1, hb.2])
          rw [hfind] at hpos
          exact (Option.some_inj.mp hpos).symm
        have hbu : b.user_order = some d := by rw [hfb]; exact hb0
        have hno : ∀ x ∈ t, ¬(x.page_number = pn ∧ x.block_number = bn) :=
          no_match_in_tail pn bn b t hk hb
        have hct : clearOrderAll pn bn t = t := clearOrderAll_no_match pn bn t hno
        have hclear : clearOrderAll pn bn (b :: t)
            = { b with user_order := none } :: t := by
          unfold clearOrderAll
          rw [List.map_cons]
          simp only [hb, and_self, if_true]
          rw [show (t.map fun x =>
              if x.page_number = pn ∧ x.block_number = bn then
                { x with user_order := none } else x) = t from hct]
        rw [hclear]
        have hshift : shiftDown d ({ b with user_order := none } :: t)
            = { b with user_order := none } :: shiftDown d t := by
          unfold shiftDown
          rw [List.map_cons]
        rw [hshift]
        have hords : ordersOf ({ b with user_order := none } :: shiftDown d t)
            = ordersOf (shiftDown d t) := by
          unfold ordersOf
          simp [List.filterMap_cons]
        rw [hords, ordersOf_shiftDown d t]
        have hordsbt : ordersOf (b :: t) = d :: ordersOf t := by
          unfold ordersOf
          simp [List.filterMap_cons, hbu]
        rw [hordsbt, List.erase_cons_head]
      · have hneg : ¬((fun x : Block => x.page_number == pn && x.block_number == bn) b = true) := by
          simpa using hb
        have hfind2 : t.find? (fun x => x.page_number == pn && x.block_number == bn)
            = some b0 := by
          have hstep : List.find? (fun x : Block => x.page_number == pn && x.block_number == bn)
              (b :: t) = t.find? (fun x => x.page_number == pn && x.block_number == bn) :=
            List.find?_cons_of_neg t hneg
          rw [← hstep]
          exact hfind
        have hdt : d ∈ ordersOf t := by
          have hmem : b0 ∈ t := List.mem_of_find?_eq_some hfind2
          exact List.mem_filterMap.mpr ⟨b0, hmem, hb0⟩
        have hclear : clearOrderAll pn bn (b :: t) = b :: clearOrderAll pn bn t := by
          unfold clearOrderAll
          rw [List.map_cons]
          simp only [hb, if_false]
        rw [hclear]
        cases hbo : b.user_order with
        | none =>
            have hnd2 : (ordersOf t).Nodup := by
              unfold ordersOf at hnd ⊢
              simpa [List.filterMap_cons, hbo] using hnd
            have ihr := ih b0 (keysNodup_tail b t hk) hnd2 hfind2 hb0
            have hshift : shiftDown d (b :: clearOrderAll pn bn t)
                = b :: shiftDown d (clearOrderAll pn bn t) := by
              unfold shiftDown
              rw [List.map_cons, hbo]
            rw [hshift]
            have h1 : ordersOf (b :: shiftDown d (clearOrderAll pn bn t))
                = ordersOf (shiftDown d (clearOrderAll pn bn t)) := by
              unfold ordersOf
              simp [List.filterMap_cons, hbo]
            have h2 : ordersOf (b :: t) = ordersOf t := by
              unfold ordersOf
              simp [List.filterMap_cons, hbo]
            rw [h1, h2, ihr]
        | some o =>
            have hnd2 : ¬ o ∈ (ordersOf t) ∧ (ordersOf t).Nodup := by
              unfold ordersOf at hnd ⊢
              simpa [List.filterMap_cons, hbo, List.nodup_cons] using hnd
            have hod : o ≠ d := fun hc => hnd2.1 (hc ▸ hdt)
            have ihr := ih b0 (keysNodup_tail b t hk) hnd2.2 hfind2 hb0
            have hshift : shiftDown d (b :: clearOrderAll pn bn t)
                = (if d < o then { b with user_order := some (o - 1) } else b)
                    :: shiftDown d (clearOrderAll pn bn t) := by
              unfold shiftDown
              rw [List.map_cons, hbo]
            rw [hshift]
            have h2 : ordersOf (b :: t) = o :: ordersOf t := by
              unfold ordersOf
              simp [List.filterMap_cons, hbo]
            rw [h2, List.erase_cons_tail (by simpa using hod)]
            by_cases hdo : d < o
            · simp only [hdo, if_true]
              have h1 : ordersOf ({ b with user_order := some (o - 1) }
                    :: shiftDown d (clearOrderAll pn bn t))
                  = (o - 1) :: ordersOf (shiftDown d (clearOrderAll pn bn t)) := by
                unfold ordersOf
                simp [List.filterMap_cons]
              rw [h1, ihr, List.map_cons]
              simp [shiftVal, hdo]
            · simp only [hdo, if_false]
              have h1 : ordersOf (b :: shiftDown d (clearOrderAll pn bn t))
                  = o :: ordersOf (shiftDown d (clearOrderAll pn bn t)) := by
                unfold ordersOf
                simp [List.filterMap_cons, hbo]
              rw [h1, ihr, List.map_cons]
              simp [shiftVal, hdo]

theorem erase_range'_map_shift (d K : Nat) (h1 : 1 ≤ d) (h2 : d ≤ K) :
    ((List.range' 1 K).erase d).map (shiftVal d) = List.range' 1 (K - 1) := by
  have hsplit : List.range' 1 (d - 1) ++ List.range' d (K - d + 1) = List.range' 1 K := by
    have h := List.range'_append_1 1 (d - 1) (K - d + 1)
    rw [show 1 + (d - 1) = d by omega] at h
    rw [show K - d + 1 + (d - 1) = K by omega] at h
    exact h
  rw [← hsplit]
  have hdk : List.range' d (K - d + 1) = d :: List.range' (d + 1) (K - d) := by
    rw [List.range'_succ]
  rw [hdk]
  have hnotmem : d ∉ List.range' 1 (d - 1) := by
    intro hm
    rcases List.mem_range'.mp hm with ⟨i, hi, he⟩
    omega
  rw [List.erase_append_right _ hnotmem, List.erase_cons_head, List.map_append]
  have hleft : (List.range' 1 (d - 1)).map (shiftVal d) = List.range' 1 (d - 1) := by
    conv_rhs => rw [← List.map_id (List.range' 1 (d - 1))]
    apply List.map_congr_left
    intro o ho
    rcases List.mem_range'.mp ho with ⟨i, hi, he⟩
    unfold shiftVal
    have hno : ¬ d < o := by omega
    simp [hno]
  have hright : (List.range' (d + 1) (K - d)).map (shiftVal d) = List.range' d (K - d) := by
    rw [List.range'_eq_map_range (d + 1), List.range'_eq_map_range d, List.map_map]
    apply List.map_congr_left
    intro i hi
    simp only [Function.comp_apply]
    unfold shiftVal
    have hlt : d < d + 1 + i := by omega
    simp only [hlt, if_true]
    omega
  rw [hleft, hright]
  have h := List.range'_append_1 1 (d - 1) (K - d)
  rw [show 1 + (d - 1) = d by omega] at h
  rw [show K - d + (d - 1) = K - 1 by omega] at h
  exact h

theorem range'_one_concat (K : Nat) :
    List.range' 1 (K + 1) = List.range' 1 K ++ [K + 1] := by
  rw [List.range'_concat, Nat.one_mul, Nat.add_comm 1 K]

theorem denseOrders_activateBlocks (bs : List Block) (pn bn : Nat)
    (hk : keysNodup bs)
    (hin : ∀ b ∈ bs, b.page_number = pn → b.block_number = bn → b.user_order = none)
    (hd : denseOrders bs) : denseOrders (activateBlocks bs pn bn) := by
  by_cases hex : ∃ b ∈ bs, b.page_number = pn ∧ b.block_number = bn
  · have hperm := ordersOf_setOrderAll pn bn (maxUserOrder bs + 1) bs hk hin hex
    unfold activateBlocks
    unfold denseOrders at hd ⊢
    rw [maxUserOrder_of_dense bs hd] at hperm
    have hchain : (ordersOf (setOrderAll pn bn
          ((bs.filterMap Block.user_order).length + 1) bs)).Perm
        (List.range' 1 ((bs.filterMap Block.user_order).length + 1)) := by
      refine hperm.trans ?_
      refine (hd.cons _).trans ?_
      rw [range'_one_concat]
      exact (List.perm_append_singleton _ _).symm
    have hlen : ((setOrderAll pn bn ((bs.filterMap Block.user_order).length + 1)
          bs).filterMap Block.user_order).length
        = (bs.filterMap Block.user_order).length + 1 := by
      have h := hchain.length_eq
      simpa using h
    rw [show maxUserOrder bs = (bs.filterMap Block.user_order).length from
      maxUserOrder_of_dense bs hd]
    rw [hlen]
    exact hchain
  · have hno : ∀ b ∈ bs, ¬(b.page_number = pn ∧ b.block_number = bn) := by
      intro b hb hc
      exact hex ⟨b, hb, hc⟩
    unfold activateBlocks
    rw [setOrderAll_no_match pn bn (maxUserOrder bs + 1) bs hno]
    exact hd

theorem denseOrders_deactivateBlocks (bs : List Block) (pn bn : Nat)
    (hk : keysNodup bs) (hd : denseOrders bs) :
    denseOrders (deactivateBlocks bs pn bn) := by
  unfold deactivateBlocks
  split
  · exact hd
  next b0 hfind =>
    split
    · exact hd
    next d hbo =>
      split
      · exact hd
      next hd0 =>
            unfold denseOrders at hd
            have hnd : (ordersOf bs).Nodup :=
              (List.Perm.nodup_iff hd).mpr (List.nodup_range' 1 _)
            have heq := ordersOf_deactivate_body pn bn d bs b0 hk hnd hfind hbo
            have hdmem : d ∈ ordersOf bs :=
              List.mem_filterMap.mpr ⟨b0, List.mem_of_find?_eq_some hfind, hbo⟩
            have hdbounds : 1 ≤ d ∧
                d ≤ (bs.filterMap Block.user_order).length := by
              have hmem2 : d ∈ List.range' 1 (bs.filterMap Block.user_order).length :=
                hd.mem_iff.mp hdmem
              rcases List.mem_range'.mp hmem2 with ⟨i, hi, he⟩
              omega
            unfold denseOrders
            have hperm : (ordersOf (shiftDown d (clearOrderAll pn bn bs))).Perm
                (List.range' 1 ((bs.filterMap Block.user_order).length - 1)) := by
              rw [heq]
              rw [← erase_range'_map_shift d (bs.filterMap Block.user_order).length
                hdbounds.1 hdbounds.2]
              exact (hd.erase d).map (shiftVal d)
            have hlen : ((shiftDown d (clearOrderAll pn bn
                  bs)).filterMap Block.user_order).length
                = (bs.filterMap Block.user_order).length - 1 := by
              have h := hperm.length_eq
              rw [List.length_range'] at h
              exact h
            rw [hlen]
            exact hperm

theorem keys_setOrderAll (pn bn next : Nat) (bs : List Block) :
    (setOrderAll pn bn next bs).map (fun b => (b.page_number, b.block_number))
      = bs.map (fun b => (b.page_number, b.block_number)) := by
  unfold setOrderAll
  rw [List.map_map]
  apply List.map_congr_left
  intro b _
  by_cases hb : b.page_number = pn ∧ b.block_number = bn <;> simp [hb]

theorem keys_clearOrderAll (pn bn : Nat) (bs : List Block) :
    (clearOrderAll pn bn bs).map (fun b => (b.page_number, b.block_number))
      = bs.map (fun b => (b.page_number, b.block_number)) := by
  unfold clearOrderAll
  rw [List.map_map]
  apply List.map_congr_left
  intro b _
  by_cases hb : b.page_number = pn ∧ b.block_number = bn <;> simp [hb]

theorem keys_shiftDown (d : Nat) (bs : List Block) :
    (shiftDown d bs).map (fun b => (b.page_number, b.block_number))
      = bs.map (fun b => (b.page_number, b.block_number)) := by
  unfold shiftDown
  rw [List.map_map]
  apply List.map_congr_left
  intro b _
  cases hb : b.user_order with
  | none => simp [hb]
  | some o => by_cases hdo : d < o <;> simp [hb, hdo]

theorem keys_deactivateBlocks (pn bn : Nat) (bs : List Block) :
    (deactivateBlocks bs pn bn).map (fun b => (b.page_number, b.block_number))
      = bs.map (fun b => (b.page_number, b.block_number)) := by
  unfold deactivateBlocks
  split
  · rfl
  · split
    · rfl
    · split
      · rfl
      · rw [keys_shiftDown, keys_clearOrderAll]

theorem keysNodup_applyOp (s : DocState) (op : LedgerOp)
    (hk : keysNodup s.blocks) : keysNodup (applyOp s op).blocks := by
  cases op with
  | activate pn bn =>
      show keysNodup (activateBlocks s.blocks pn bn)
      unfold keysNodup activateBlocks at *
      rw [keys_setOrderAll]
      exact hk
  | deactivate pn bn =>
      show keysNodup (deactivateBlocks s.blocks pn bn)
      unfold keysNodup at *
      rw [keys_deactivateBlocks]
      exact hk

theorem denseOrders_applyOp (s : DocState) (op : LedgerOp)
    (hk : keysNodup s.blocks) (hok : opOK s op = true)
    (hd : denseOrders s.blocks) : denseOrders (applyOp s op).blocks := by
  cases op with
  | activate pn bn =>
      have hin : ∀ b ∈ s.blocks, b.page_number = pn → b.block_number = bn →
          b.user_order = none := by
        intro b hb h1 h2
        unfold opOK at hok
        rw [List.all_eq_true] at hok
        have hb2 := hok b hb
        simp [h1, h2] at hb2
        exact hb2
      exact denseOrders_activateBlocks s.blocks pn bn hk hin hd
  | deactivate pn bn => exact denseOrders_deactivateBlocks s.blocks pn bn hk hd

theorem denseOrders_applyOps (ops : List LedgerOp) : ∀ s : DocState,
    keysNodup s.blocks → denseOrders s.blocks → opsOK s ops = true →
    denseOrders (applyOps s ops).blocks := by
  induction ops with
  | nil => intro s _ hd _; exact hd
  | cons op rest ih =>
      intro s hk hd hok
      unfold opsOK at hok
      rw [Bool.and_eq_true] at hok
      have h1 := denseOrders_applyOp s op hk hok.1 hd
      have h2 := keysNodup_applyOp s op hk
      unfold applyOps at ih ⊢
      rw [List.foldl_cons]
      exact ih (applyOp s op) h2 h1 hok.2

/-- C2 counterexample: activating the same block twice, a sequence of
activate operations starting from all-null orders, leaves the lone active
block with activation order 2, so the non-null orders are the set containing
2 rather than 1..1: the endpoint has no no-op check for an already active
block and assigns max+1 again. -/
theorem claim_C2_counterexample :
    ¬ denseOrders (applyOps exC2
      [LedgerOp.activate 1 1, LedgerOp.activate 1 1]).blocks := by
  decide

/-- C2 amended: for every sequence of activate and deactivate requests in
which activation is only ever requested for a block that is inactive at
that moment (deactivation is unrestricted), starting from all activation
orders null on blocks with pairwise distinct page/block-number keys, after
the whole sequence, hence after every prefix, the non-null activation
orders are exactly 1..K with K the number of active blocks. -/
theorem claim_C2_amended (s : DocState) (ops : List LedgerOp)
    (hk : keysNodup s.blocks)
    (h0 : ∀ b ∈ s.blocks, b.user_order = none)
    (hops : opsOK s ops = true) :
    denseOrders (applyOps s ops).blocks := by
  apply denseOrders_applyOps ops s hk ?_ hops
  unfold denseOrders
  have hnil : s.blocks.filterMap Block.user_order = [] :=
    List.filterMap_eq_nil_iff.mpr h0
  rw [hnil]
  exact List.Perm.refl _

/-- Witness for C2 on a concrete activate/activate/deactivate sequence. -/
theorem claim_C2_witness :
    denseOrders (applyOps exC2w
      [LedgerOp.activate 1 1, LedgerOp.activate 1 2, LedgerOp.deactivate 1 1]).blocks :=
  claim_C2_amended exC2w
    [LedgerOp.activate 1 1, LedgerOp.activate 1 2, LedgerOp.deactivate 1 1]
    (by decide) (by decide) (by decide)

/-! ### Claim C5: the word-numbering invariant -/



theorem assignNumbersLoop_eq_pairs (rows : List Row) : ∀ n : Nat,
    assignNumbersLoop rows n
      = assignPairs ((rows.filter (·.is_starter)).map (·.word_id)) n := by
  induction rows with
  | nil => intro n; rfl
  | cons r rest ih =>
      intro n
      cases hr : r.is_starter
      · simp [assignNumbersLoop, List.filter_cons, hr, ih]
      · simp [assignNumbersLoop, List.filter_cons, hr, assignPairs, ih]

theorem assignPairs_lookup_isSome (ids : List Nat) : ∀ n id0 : Nat,
    ((assignPairs ids n).lookup id0).isSome = true ↔ id0 ∈ ids := by
  induction ids with
  | nil => intro n id0; simp [assignPairs]
  | cons a t ih =>
      intro n id0
      rw [assignPairs, List.lookup_cons]
      by_cases h : id0 = a
      · simp [h]
      · simp only [h, List.mem_cons, false_or]
        rw [show (id0 == a) = false by simp [h]]
        exact ih (n + 1) id0

theorem getD_mem_of_lt {l : List Nat} {i : Nat} (h : i < l.length) :
    l.getD i 0 ∈ l := by
  rw [List.getD_eq_getElem?_getD, List.getElem?_eq_getElem h]
  exact List.getElem_mem h

theorem assignPairs_lookup_getD (ids : List Nat) : ∀ n i : Nat, ids.Nodup →
    i < ids.length →
    (assignPairs ids n).lookup (ids.getD i 0) = some (n + i) := by
  induction ids with
  | nil => intro n i _ h; simp at h
  | cons a t ih =>
      intro n i hnd h
      rw [List.nodup_cons] at hnd
      cases i with
      | zero => simp [assignPairs]
      | succ j =>
          have hj : j < t.length := by simpa using h
          have hmem : t.getD j 0 ∈ t := getD_mem_of_lt hj
          have hne : ¬ t.getD j 0 = a := fun hc => hnd.1 (hc ▸ hmem)
          rw [List.getD_cons_succ, assignPairs, List.lookup_cons]
          rw [show (t.getD j 0 == a) = false by
            simp only [beq_eq_false_iff_ne]
            exact hne]
          simp only [Bool.false_eq_true, if_false]
          rw [ih (n + 1) j hnd.2 hj]
          congr 1
          omega

theorem wordRows2_mem (bs : List Block) (w : Word) (r : Row) :
    r ∈ wordRows2 bs w ↔ ∃ b ∈ bs, ∃ u : Nat, b.user_order = some u ∧
      b.id = w.block_id ∧
      r = ⟨b.id, w.page_id, u, w.word_number, w.text, w.is_sentence_starter, w.id⟩ := by
  unfold wordRows2
  rw [List.mem_filterMap]
  constructor
  · rintro ⟨b, hb, hf⟩
    cases hu : b.user_order with
    | none => rw [hu] at hf; simp at hf
    | some u =>
        rw [hu] at hf
        by_cases hid : b.id = w.block_id
        · simp only [hid, true_and, if_pos rfl] at hf
          exact ⟨b, hb, u, hu, hid, by
            rw [← Option.some_inj.mp hf]
            rw [hid]⟩
        · simp [hid] at hf
  · rintro ⟨b, hb, u, hu, hid, rfl⟩
    refine ⟨b, hb, ?_⟩
    rw [hu]
    simp [hid]

theorem joinRows2_mem (s : DocState) (r : Row) :
    r ∈ joinRows2 s ↔ ∃ w ∈ s.words, r ∈ wordRows2 s.blocks w := by
  unfold joinRows2
  exact List.mem_flatMap

theorem mem_activeJoinRows2 (s : DocState) (r : Row) :
    r ∈ activeJoinRows2 s ↔ r ∈ joinRows2 s :=
  (List.perm_insertionSort rowLe (joinRows2 s)).mem_iff

theorem mem_starterIds (s : DocState) (hw : (s.words.map Word.id).Nodup)
    (w : Word) (hmem : w ∈ s.words) :
    w.id ∈ starterIds s ↔ (w.is_sentence_starter = true ∧ wordActive s w) := by
  unfold starterIds starterRows
  rw [List.mem_map]
  constructor
  · rintro ⟨r, hrf, hrid⟩
    rw [List.mem_filter] at hrf
    have hr2 := (mem_activeJoinRows2 s r).mp hrf.1
    rcases (joinRows2_mem s r).mp hr2 with ⟨w0, hw0, hrw⟩
    rcases (wordRows2_mem s.blocks w0 r).mp hrw with ⟨b, hb, u, hu, hid, rfl⟩
    have hw0w : w0 = w := List.inj_on_of_nodup_map hw hw0 hmem hrid
    subst hw0w
    refine ⟨by simpa using hrf.2, ⟨b, hb, hid, by rw [hu]; rfl⟩⟩
  · rintro ⟨hst, b, hb, hbid, hbsome⟩
    rcases Option.isSome_iff_exists.mp hbsome with ⟨u, hu⟩
    refine ⟨⟨b.id, w.page_id, u, w.word_number, w.text, w.is_sentence_starter, w.id⟩,
      ?_, rfl⟩
    rw [List.mem_filter]
    refine ⟨(mem_activeJoinRows2 s _).mpr ((joinRows2_mem s _).mpr
      ⟨w, hmem, (wordRows2_mem s.blocks w _).mpr ⟨b, hb, u, hu, hbid, rfl⟩⟩),
      by simpa using hst⟩

theorem wordRows2_word_id (bs : List Block) (w : Word) (r : Row)
    (hr : r ∈ wordRows2 bs w) : r.word_id = w.id := by
  rcases (wordRows2_mem bs w r).mp hr with ⟨b, _, u, _, _, rfl⟩
  rfl

theorem wordRows2_eq_nil (bs : List Block) (w : Word)
    (h : ∀ b ∈ bs, b.id ≠ w.block_id) : wordRows2 bs w = [] := by
  unfold wordRows2
  rw [List.filterMap_eq_nil_iff]
  intro b hb
  cases hu : b.user_order with
  | none => rfl
  | some u => simp [h b hb]

theorem wordRows2_length_le (bs : List Block) (w : Word)
    (hb : (bs.map Block.id).Nodup) : (wordRows2 bs w).length ≤ 1 := by
  induction bs with
  | nil => simp [wordRows2]
  | cons b t ih =>
      rw [List.map_cons, List.nodup_cons] at hb
      have hstep : wordRows2 (b :: t) w
          = (match b.user_order with
             | some u =>
                 if b.id = w.block_id then
                   [(⟨b.id, w.page_id, u, w.word_number, w.text,
                     w.is_sentence_starter, w.id⟩ : Row)]
                 else []
             | none => []) ++ wordRows2 t w := by
        unfold wordRows2
        rw [List.filterMap_cons]
        cases hu : b.user_order with
        | none => rfl
        | some u =>
            by_cases hid : b.id = w.block_id <;> simp [hid]
      rw [hstep]
      cases hu : b.user_order with
      | none => simpa using ih hb.2
      | some u =>
          by_cases hid : b.id = w.block_id
          · have hnil : wordRows2 t w = [] := by
              apply wordRows2_eq_nil
              intro b2 hb2 hc
              exact hb.1 (by
                rw [← hc] at hid
                rw [hid]
                exact List.mem_map.mpr ⟨b2, hb2, rfl⟩)
            simp [hid, hnil]
          · simpa [hid] using ih hb.2

theorem flatMap_wordRows2_sublist (s : DocState)
    (hb : (s.blocks.map Block.id).Nodup) :
    ((joinRows2 s).map (·.word_id)).Sublist (s.words.map Word.id) := by
  unfold joinRows2
  have hgen : ∀ ws : List Word,
      ((ws.flatMap (wordRows2 s.blocks)).map (·.word_id)).Sublist
        (ws.map Word.id) := by
    intro ws
    induction ws with
    | nil => simp
    | cons w t ih =>
        rw [List.flatMap_cons, List.map_append, List.map_cons]
        cases hg : wordRows2 s.blocks w with
        | nil =>
            simp only [List.map_nil, List.nil_append]
            exact ih.trans (List.sublist_cons_self _ _)
        | cons r rt =>
            have hlen := wordRows2_length_le s.blocks w hb
            rw [hg] at hlen
            have hrt : rt = [] := by
              cases rt with
              | nil => rfl
              | cons x u => simp at hlen
            subst hrt
            have hr : r.word_id = w.id :=
              wordRows2_word_id s.blocks w r (by rw [hg]; simp)
            simp only [List.map_cons, List.map_nil, List.cons_append,
              List.nil_append, hr]
            exact ih.cons₂ w.id
  exact hgen s.words

theorem starterIds_nodup (s : DocState) (hw : (s.words.map Word.id).Nodup)
    (hb : (s.blocks.map Block.id).Nodup) : (starterIds s).Nodup := by
  unfold starterIds starterRows
  have hperm : (((activeJoinRows2 s).filter (·.is_starter)).map (·.word_id)).Perm
      (((joinRows2 s).filter (·.is_starter)).map (·.word_id)) :=
    ((List.perm_insertionSort rowLe (joinRows2 s)).filter _).map _
  apply hperm.nodup_iff.mpr
  have hsub : (((joinRows2 s).filter (·.is_starter)).map (·.word_id)).Sublist
      ((joinRows2 s).map (·.word_id)) :=
    ((joinRows2 s).filter_sublist).map _
  exact (hsub.trans (flatMap_wordRows2_sublist s hb)).nodup hw

theorem starterIds_perm_unsorted (s : DocState) :
    (starterIds s).Perm (((joinRows2 s).filter (·.is_starter)).map (·.word_id)) := by
  unfold starterIds starterRows
  exact ((List.perm_insertionSort rowLe (joinRows2 s)).filter _).map _

theorem mem_words_of_mem_starterIds (s : DocState) (x : Nat)
    (hx : x ∈ starterIds s) : x ∈ s.words.map Word.id := by
  have h1 := (starterIds_perm_unsorted s).mem_iff.mp hx
  have h2 : x ∈ (joinRows2 s).map (·.word_id) :=
    (((joinRows2 s).filter_sublist).map (·.word_id)).subset h1
  rcases List.mem_map.mp h2 with ⟨r, hr, hrx⟩
  rcases (joinRows2_mem s r).mp hr with ⟨w0, hw0, hrw⟩
  have hrid := wordRows2_word_id s.blocks w0 r hrw
  exact List.mem_map.mpr ⟨w0, hw0, by rw [← hrid, hrx]⟩

/-- C5 counterexample: after the completed activate-block operation the
lone word is a starter in a currently active block yet its sentence number
is still null, so the claimed invariant fails: activation never touches
sentence numbers and no rebuild runs. -/
theorem claim_C5_counterexample :
    ¬ numberingInvariant (activateBlock exC5 1 1 true) := by
  decide

/-- C5 amended: the invariant does hold after every operation that ends in
a sync_sentences run finding at least one active-block word (toggle, reset
and sync itself): each word's sentence number is non-null iff the word is a
starter of a currently active block, and the numbers of the active
starters, read in (user_order, word_number) order, are exactly 1..N.  It
does not hold after activate/deactivate, which never renumber  (word ids
and block ids are assumed pairwise distinct, as the schema guarantees). -/
theorem claim_C5_amended (s : DocState)
    (hw : (s.words.map Word.id).Nodup) (hb : (s.blocks.map Block.id).Nodup)
    (h : activeJoinRows s ≠ []) :
    numberingInvariant ((syncSentences s).1) := by
  rw [syncSentences_of_ne s h]
  show numberingInvariant
    ⟨s.blocks, s.words.map (setNumber (assignNumbersLoop (activeJoinRows2 s) 1)),
      buildSentences (activeJoinRows s)⟩
  have hassign : assignNumbersLoop (activeJoinRows2 s) 1
      = assignPairs (starterIds s) 1 :=
    assignNumbersLoop_eq_pairs (activeJoinRows2 s) 1
  constructor
  · intro w' hw'
    rcases List.mem_map.mp hw' with ⟨w, hwmem, rfl⟩
    have hnum : (setNumber (assignNumbersLoop (activeJoinRows2 s) 1) w).sentence_number
        = (assignNumbersLoop (activeJoinRows2 s) 1).lookup w.id := by
      unfold setNumber
      cases (assignNumbersLoop (activeJoinRows2 s) 1).lookup w.id <;> rfl
    have hflag := (setNumber_shape (assignNumbersLoop (activeJoinRows2 s) 1) w).2.2.2.2.2
    have hblk := (setNumber_shape (assignNumbersLoop (activeJoinRows2 s) 1) w).2.2.1
    rw [hnum, hflag]
    have hact : wordActive
        ⟨s.blocks, s.words.map (setNumber (assignNumbersLoop (activeJoinRows2 s) 1)),
          buildSentences (activeJoinRows s)⟩
        (setNumber (assignNumbersLoop (activeJoinRows2 s) 1) w)
        ↔ wordActive s w := by
      unfold wordActive
      rw [hblk]
    rw [hact, hassign]
    exact (assignPairs_lookup_isSome (starterIds s) 1 w.id).trans
      (mem_starterIds s hw w hwmem)
  · have hsr : starterRows
        ⟨s.blocks, s.words.map (setNumber (assignNumbersLoop (activeJoinRows2 s) 1)),
          buildSentences (activeJoinRows s)⟩ = starterRows s := by
      unfold starterRows
      rw [activeJoinRows2_setNumber]
    rw [hsr]
    apply List.ext_get?
    intro i
    by_cases hi : i < (starterRows s).length
    · rw [List.get?_map, List.get?_map]
      rw [List.get?_eq_get hi]
      rw [List.get?_eq_get (show i < (List.range' 1 (starterRows s).length).length by
        simpa using hi)]
      simp only [Option.map_some']
      congr 1
      have hrange : (List.range' 1 (starterRows s).length).get
          ⟨i, by simpa using hi⟩ = 1 + i := by
        have hh := List.getElem_range' i
          (show i < (List.range' 1 (starterRows s).length 1).length by simpa using hi)
        simp only [Nat.one_mul] at hh
        exact hh
      rw [hrange]
      have hlen2 : i < (starterIds s).length := by
        unfold starterIds
        simpa using hi
      have hrid : (starterIds s).getD i 0
          = ((starterRows s).get ⟨i, hi⟩).word_id := by
        unfold starterIds
        rw [List.getD_eq_getElem?_getD, List.getElem?_map,
          List.getElem?_eq_getElem hi]
        rfl
      have hNod : (starterIds s).Nodup := starterIds_nodup s hw hb
      have hlookup : (assignPairs (starterIds s) 1).lookup
          ((starterRows s).get ⟨i, hi⟩).word_id = some (1 + i) := by
        rw [← hrid]
        exact assignPairs_lookup_getD (starterIds s) 1 i hNod hlen2
      have hmemids : ((starterRows s).get ⟨i, hi⟩).word_id ∈ starterIds s := by
        rw [← hrid]
        exact getD_mem_of_lt hlen2
      rcases List.mem_map.mp (mem_words_of_mem_starterIds s _ hmemids)
        with ⟨w0, hw0mem, hw0id⟩
      show numberOfWordId
          ⟨s.blocks, s.words.map (setNumber (assignNumbersLoop (activeJoinRows2 s) 1)),
            buildSentences (activeJoinRows s)⟩
          ((starterRows s).get ⟨i, hi⟩).word_id = some (1 + i)
      unfold numberOfWordId
      show ((s.words.map (setNumber (assignNumbersLoop (activeJoinRows2 s) 1))).find?
          (fun w => w.id == ((starterRows s).get ⟨i, hi⟩).word_id)).bind
          Word.sentence_number = some (1 + i)
      rw [List.find?_map]
      rw [show ((fun w : Word => w.id == ((starterRows s).get ⟨i, hi⟩).word_id)
            ∘ setNumber (assignNumbersLoop (activeJoinRows2 s) 1))
          = (fun w : Word => w.id == ((starterRows s).get ⟨i, hi⟩).word_id) from by
        funext v
        simp only [Function.comp_apply,
          (setNumber_shape (assignNumbersLoop (activeJoinRows2 s) 1) v).1]]
      have hfind : (s.words.find? (fun w =>
          w.id == ((starterRows s).get ⟨i, hi⟩).word_id)).isSome := by
        rw [List.find?_isSome]
        exact ⟨w0, hw0mem, by simp [hw0id]⟩
      rcases Option.isSome_iff_exists.mp hfind with ⟨w1, hw1⟩
      have hw1id : w1.id = ((starterRows s).get ⟨i, hi⟩).word_id := by
        have := List.find?_some hw1
        simpa using this
      rw [hw1]
      simp only [Option.map_some', Option.some_bind]
      have hnum1 : (setNumber (assignNumbersLoop (activeJoinRows2 s) 1) w1).sentence_number
          = (assignNumbersLoop (activeJoinRows2 s) 1).lookup w1.id := by
        unfold setNumber
        cases (assignNumbersLoop (activeJoinRows2 s) 1).lookup w1.id <;> rfl
      rw [hnum1, hassign, hw1id, hlookup]
    · have hn1 : (starterRows s).length ≤ i := Nat.le_of_not_lt hi
      rw [List.get?_eq_none.mpr (by simpa using hn1),
        List.get?_eq_none.mpr (by simpa using hn1)]

/-- Witness for C5 at the concrete state exC5w. -/
theorem claim_C5_witness :
    numberingInvariant ((syncSentences exC5w).1) :=
  claim_C5_amended exC5w (by decide) (by decide) (by decide)
